import Mathlib

/-!
Verification of the trace-analysis core of the `ezzzit` repository
(`rag_service`): trace normalization (`trace_analysis/trace_processor.py`),
state diffing (`trace_analysis/state_diff.py`), concept extraction
(`execution/concept_extractor.py`), knowledge retrieval
(`execution/knowledge_retrieval.py`) and explanation synthesis
(`explainer/step_explainer.py`), shallowly embedded in Lean.

Modelling conventions:
* Python values flowing through variable snapshots are modelled by the
  inductive `Value` (numbers are modelled as integers; floats do not occur
  in the claims under verification).  Python `dict`s are modelled as
  association lists with string keys in a canonical (insertion) order and
  unique keys, as produced by the tracer; dict equality is entrywise in
  that canonical order.
* Python `==` on values is modelled by `pyEq`; note that in Python
  `True == 1` holds (bool is a subtype of int) and a tuple never equals a
  list.
* Exceptions: functions that can observably raise are given `Except`
  result types; functions whose every path returns normally are total.
* Where Python iterates over a `set` of dict keys (unspecified order), the
  embedding iterates over the snapshot's canonical entry order; all
  theorems below are order-insensitive in exactly those places.
-/

/-- Model of the Python runtime values stored in variable snapshots.
`obj ty s` models an opaque object with `type(v).__name__ = ty` and
`str(v) = s`. -/
inductive Value where
  | none : Value
  | bool : Bool → Value
  | int : Int → Value
  | str : String → Value
  | list : List Value → Value
  | tuple : List Value → Value
  | dict : List (String × Value) → Value
  | obj : String → String → Value
deriving Repr

mutual

/-- Python `==` on modelled values: `True == 1`, tuples never equal lists,
lists/tuples compare elementwise, dicts compare entrywise in canonical
order (see the module conventions). -/
def pyEq : Value → Value → Bool
  | Value.none, Value.none => true
  | Value.bool a, Value.bool b => a == b
  | Value.bool a, Value.int n => (if a then (1 : Int) else 0) == n
  | Value.int n, Value.bool a => n == (if a then (1 : Int) else 0)
  | Value.int m, Value.int n => m == n
  | Value.str s, Value.str t => s == t
  | Value.list xs, Value.list ys => pyEqList xs ys
  | Value.tuple xs, Value.tuple ys => pyEqList xs ys
  | Value.dict xs, Value.dict ys => pyEqEntries xs ys
  | Value.obj t s, Value.obj t2 s2 => t == t2 && s == s2
  | _, _ => false

/-- Elementwise Python equality of two value sequences. -/
def pyEqList : List Value → List Value → Bool
  | [], [] => true
  | x :: xs, y :: ys => pyEq x y && pyEqList xs ys
  | _, _ => false

/-- Entrywise Python equality of two canonical dict representations. -/
def pyEqEntries : List (String × Value) → List (String × Value) → Bool
  | [], [] => true
  | (k, v) :: xs, (k2, v2) :: ys => k == k2 && pyEq v v2 && pyEqEntries xs ys
  | _, _ => false

end

/-- A variable snapshot: Python `dict[str, Any]` in canonical entry order. -/
abbrev Snap := List (String × Value)

/-- Membership of a key in a snapshot (Python `name in dict`). -/
def containsKey (s : Snap) (k : String) : Bool :=
  s.any (fun kv => kv.1 == k)

/-- Python `dict[name]` lookup (snapshots have unique keys; default is
only a formal totalizer, never hit under the membership guard). -/
def lookupV (s : Snap) (k : String) : Value :=
  match s.find? (fun kv => kv.1 == k) with
  | Option.some kv => kv.2
  | Option.none => Value.none

/-- Keys of a snapshot, in canonical order. -/
def keysOf (s : Snap) : List String := s.map Prod.fst

/-- Python `==` between two snapshots (dict equality, canonical order). -/
def snapEq (s t : Snap) : Bool := pyEqEntries s t

/-- Embeds `StateDiffEngine._normalize_value` (state_diff.py:97-134): identity on
`None`/strings/numbers/booleans/dicts, `list(value)` on lists and tuples
(note: the conversion is shallow), `str(value)` on anything else.  In
Python `isinstance(True, (int, float))` holds, so booleans are returned
unchanged by the numbers branch; the embedding returns them unchanged
directly. -/
def normalizeValue : Value → Value
  | Value.none => Value.none
  | Value.str s => Value.str s
  | Value.int n => Value.int n
  | Value.bool b => Value.bool b
  | Value.list xs => Value.list xs
  | Value.tuple xs => Value.list xs
  | Value.dict xs => Value.dict xs
  | Value.obj _ s => Value.str s

/-- Embeds `VariableChange` (state_diff.py:18-52).  Python passes `None` for an
absent old/new value, which is `Value.none` here. -/
structure VariableChange where
  name : String
  change_type : String
  old_value : Value
  new_value : Value
deriving Repr

/-- Embeds `StateDiff` (state_diff.py:55-87): created/modified/removed lists. -/
structure StateDiff where
  created : List VariableChange
  modified : List VariableChange
  removed : List VariableChange
deriving Repr

/-- Embeds `StateDiff.has_changes` (state_diff.py:63-65). -/
def StateDiff.has_changes (d : StateDiff) : Bool :=
  !d.created.isEmpty || !d.modified.isEmpty || !d.removed.isEmpty

/-- Embeds `StateDiff.get_all_changes` (state_diff.py:67-69). -/
def StateDiff.get_all_changes (d : StateDiff) : List VariableChange :=
  d.created ++ d.modified ++ d.removed

/-- Embeds `StateDiffEngine.compute_diff` (state_diff.py:136-183).  `prev = none`
models `prev_vars is None`.  Python iterates the created/removed/modified
name sets in unspecified set order with dict lookups; the embedding
iterates the snapshots' canonical entry order (entry values coincide with
lookups because snapshot keys are unique). -/
def computeDiff (prev : Option Snap) (curr : Snap) : StateDiff :=
  match prev with
  | Option.none =>
      { created := curr.map (fun kv =>
          ⟨kv.1, "created", Value.none, normalizeValue kv.2⟩)
        modified := []
        removed := [] }
  | Option.some p =>
      if p.isEmpty then
        { created := curr.map (fun kv =>
            ⟨kv.1, "created", Value.none, normalizeValue kv.2⟩)
          modified := []
          removed := [] }
      else
        { created := (curr.filter (fun kv => !containsKey p kv.1)).map
            (fun kv => ⟨kv.1, "created", Value.none, normalizeValue kv.2⟩)
          modified := (curr.filter (fun kv => containsKey p kv.1 &&
              !pyEq (normalizeValue (lookupV p kv.1)) (normalizeValue kv.2))).map
            (fun kv => ⟨kv.1, "modified", normalizeValue (lookupV p kv.1),
              normalizeValue kv.2⟩)
          removed := (p.filter (fun kv => !containsKey curr kv.1)).map
            (fun kv => ⟨kv.1, "removed", normalizeValue kv.2, Value.none⟩) }

/-- One processed trace step (the `enriched_step` dict built by
`TraceProcessor.process_trace`, trace_processor.py:106-114). -/
structure PStep where
  step : Nat
  line : Int
  source : String
  function : String
  -- models the 'variables' key ('variables' is reserved in Lean)
  vars : Snap
  event : String
  call_stack_depth : Int
deriving Repr

/-- Loop body of `StateDiffEngine.compute_trace_diffs`
(state_diff.py:198-206): fold over the steps threading the previous
step's raw `variables` dict. -/
def computeTraceDiffsAux (prev : Option Snap) : List PStep → List StateDiff
  | [] => []
  | s :: rest => computeDiff prev s.vars ::
      computeTraceDiffsAux (Option.some s.vars) rest

/-- Embeds `StateDiffEngine.compute_trace_diffs` (state_diff.py:185-208); the
`if not trace: return []` early exit coincides with the fold on `[]`. -/
def computeTraceDiffs (trace : List PStep) : List StateDiff :=
  computeTraceDiffsAux Option.none trace

/-- One raw trace step (a dict from the execution API; every key may be
absent, which `Option.none` models; `variables` is the `vars` field). -/
structure RawStep where
  line : Option Int
  vars : Option Snap
  function : Option String
  event : Option String
  call_stack_depth : Option Int
deriving Repr

/-- Python `==` between two optional snapshots (`dict.get` results):
`None == None` is `True`, `None == dict` is `False`. -/
def optSnapEq : Option Snap → Option Snap → Bool
  | Option.none, Option.none => true
  | Option.some s, Option.some t => snapEq s t
  | _, _ => false

/-- The `same_line and same_vars` test of
`TraceProcessor.is_redundant_frame` (trace_processor.py:67-69). -/
def sameLineAndVars (s p : RawStep) : Bool :=
  (s.line == p.line) && optSnapEq s.vars p.vars

/-- Embeds `TraceProcessor.is_redundant_frame` (trace_processor.py:49-75). -/
def isRedundantFrame (s : RawStep) (prev : Option RawStep) : Bool :=
  match prev with
  | Option.none => false
  | Option.some p => sameLineAndVars s p

/-- Embeds `TraceProcessor.get_line_content` (trace_processor.py:35-47):
1-indexed lookup into the split source, stripped; out of bounds gives
the empty string. -/
def getLineContent (codeLines : List String) (lineNum : Int) : String :=
  if 0 < lineNum && lineNum <= (codeLines.length : Int) then
    ((codeLines.get? (lineNum - 1).toNat).getD "").trim
  else ""

/-- The `enriched_step` dict built for a retained raw step
(trace_processor.py:102-114); `n` is `len(processed_steps) + 1`. -/
def enrichStep (codeLines : List String) (n : Nat) (s : RawStep) : PStep :=
  { step := n
    line := s.line.getD 0
    source := getLineContent codeLines (s.line.getD 0)
    function := s.function.getD "main"
    vars := s.vars.getD []
    event := s.event.getD "line"
    call_stack_depth := s.call_stack_depth.getD 0 }

/-- Loop of `TraceProcessor.process_trace` (trace_processor.py:94-117):
`prev` is the last *retained* raw step (`prev_step` is only reassigned
when a step is appended), `n` is `len(processed_steps)` so far. -/
def processTraceAux (codeLines : List String) (prev : Option RawStep)
    (n : Nat) : List RawStep → List PStep
  | [] => []
  | s :: rest =>
      if isRedundantFrame s prev then processTraceAux codeLines prev n rest
      else enrichStep codeLines (n + 1) s ::
        processTraceAux codeLines (Option.some s) (n + 1) rest

/-- Embeds `TraceProcessor.process_trace` (trace_processor.py:77-120), for a
processor built on source `code` (`self.code_lines = code.split('\n')`);
the `if not raw_trace: return []` early exit coincides with the loop. -/
def processTrace (code : String) (rawTrace : List RawStep) : List PStep :=
  processTraceAux (code.splitOn "\n") Option.none 0 rawTrace

/-- The claim-side filter, written from the spec's words: a step is
dropped iff its line number and full variable snapshot are identical to
the immediately preceding *retained* step; the survivors are kept in
order.  `lastKept` is the most recently retained step. -/
def specRetainAux (lastKept : Option RawStep) : List RawStep → List RawStep
  | [] => []
  | s :: rest =>
      match lastKept with
      | Option.some p =>
          if sameLineAndVars s p then specRetainAux lastKept rest
          else s :: specRetainAux (Option.some s) rest
      | Option.none => s :: specRetainAux (Option.some s) rest

/-- The claim-side retained subsequence of a raw trace. -/
def specRetain (t : List RawStep) : List RawStep :=
  specRetainAux Option.none t

/-- Enrichment of an already-filtered raw subsequence: step `k` of the
remainder gets index `n + k` (1-based overall). -/
def enrichAll (codeLines : List String) (n : Nat) : List RawStep → List PStep
  | [] => []
  | s :: rest => enrichStep codeLines (n + 1) s :: enrichAll codeLines (n + 1) rest

theorem processTraceAux_eq_enrich_specRetain (codeLines : List String)
    (prev : Option RawStep) (n : Nat) (l : List RawStep) :
    processTraceAux codeLines prev n l =
      enrichAll codeLines n (specRetainAux prev l) := by
  induction l generalizing prev n with
  | nil => rfl
  | cons s rest ih =>
      cases prev with
      | none =>
          simp [processTraceAux, specRetainAux, isRedundantFrame, enrichAll, ih]
      | some p =>
          by_cases h : sameLineAndVars s p = true
          · simp [processTraceAux, specRetainAux, isRedundantFrame, h, ih]
          · simp [processTraceAux, specRetainAux, isRedundantFrame, h, ih,
              enrichAll]

theorem specRetainAux_sublist (prev : Option RawStep) (l : List RawStep) :
    List.Sublist (specRetainAux prev l) l := by
  induction l generalizing prev with
  | nil => simp [specRetainAux]
  | cons s rest ih =>
      cases prev with
      | none =>
          simpa [specRetainAux] using List.Sublist.cons₂ s (ih (Option.some s))
      | some p =>
          by_cases h : sameLineAndVars s p = true
          · simpa [specRetainAux, h] using
              List.Sublist.cons s (ih (Option.some p))
          · simpa [specRetainAux, h] using
              List.Sublist.cons₂ s (ih (Option.some s))

/-- Regex `\w` on the ASCII alphabet used by the traced programs. -/
def wordChar (c : Char) : Bool := c.isAlpha || c.isDigit || c == '_'

/-- Regex `\s` (whitespace, including vertical tab and form feed). -/
def reSpace (c : Char) : Bool := c.isWhitespace || c == '\x0b' || c == '\x0c'

/-- Does `pat` occur at the head of `s`? -/
def startsL : List Char → List Char → Bool
  | [], _ => true
  | _ :: _, [] => false
  | p :: ps, c :: cs => p == c && startsL ps cs

/-- Python `pat in s` (substring containment). -/
def containsL (pat : List Char) : List Char → Bool
  | [] => pat.isEmpty
  | c :: cs => startsL pat (c :: cs) || containsL pat cs

/-- Python `ch in s` for a single character. -/
def hasChar (c : Char) (s : List Char) : Bool := s.any (fun d => d == c)

/-- Python `s.strip()`: drop leading and trailing whitespace. -/
def trimChars (s : List Char) : List Char :=
  ((s.dropWhile reSpace).reverse.dropWhile reSpace).reverse

/-- Python `<` on strings as code-point lexicographic order over the
character lists (equal heads recurse). -/
def lexLt : List Char → List Char → Bool
  | _, [] => false
  | [], _ :: _ => true
  | a :: as, b :: bs =>
      if a < b then true else if b < a then false else lexLt as bs

/-- Python `<` on tag strings (used by `sorted`). -/
def tagLt (x y : String) : Bool := lexLt x.data y.data

/-- Is the character before a candidate match position a word boundary? -/
def boundaryOk : Option Char → Bool
  | Option.none => true
  | Option.some c => !wordChar c

/-- Is the position after a candidate match a word boundary? -/
def afterOk : List Char → Bool
  | [] => true
  | c :: _ => !wordChar c

/-- Scan for `re.search(r'\b' + kw + r'\b', s)` where `kw` consists of
word characters; `before` is the character preceding the scan point. -/
def wordSearchAux (kw : List Char) : Option Char → List Char → Bool
  | _, [] => kw.isEmpty
  | before, c :: cs =>
      (boundaryOk before && startsL kw (c :: cs) &&
        afterOk ((c :: cs).drop kw.length)) ||
      wordSearchAux kw (Option.some c) cs

/-- Word-boundary keyword search (concept_extractor.py:65-66, 90-91). -/
def wordSearch (kw : String) (s : List Char) : Bool :=
  wordSearchAux kw.data Option.none s

/-- After the last word character of a candidate call: whitespace run
then an opening parenthesis. -/
def wsThenParen : List Char → Bool
  | [] => false
  | c :: cs => c == '(' || (reSpace c && wsThenParen cs)

/-- Scan for `re.search(r'\w+\s*\(', s)` (concept_extractor.py:104): a
match exists iff some word character is followed, after optional
whitespace, by `(`. -/
def callSearch : List Char → Bool
  | [] => false
  | c :: cs => (wordChar c && wsThenParen cs) || callSearch cs

/-- Find `tok` in `s` without crossing a newline (regex `.` never matches
`'\n'`); returns the remainder after the first occurrence. -/
def gapFind (tok : List Char) : List Char → Option (List Char)
  | [] => if tok.isEmpty then Option.some [] else Option.none
  | c :: cs =>
      if startsL tok (c :: cs) then Option.some ((c :: cs).drop tok.length)
      else if c == '\n' then Option.none
      else gapFind tok cs

/-- Does `\[.*for.*in.*\]` match starting right after an `[`? -/
def comprehAt (cs : List Char) : Bool :=
  match gapFind ['f', 'o', 'r'] cs with
  | Option.some r1 =>
      match gapFind ['i', 'n'] r1 with
      | Option.some r2 => (gapFind [']'] r2).isSome
      | Option.none => false
  | Option.none => false

/-- Scan for `re.search(r'\[.*for.*in.*\]', s)` (concept_extractor.py:108). -/
def comprehSearch : List Char → Bool
  | [] => false
  | c :: cs => (c == '[' && comprehAt cs) || comprehSearch cs

/-- A quote character as in the char class `["']`. -/
def isQuote (c : Char) : Bool := c == '"' || c == '\''

/-- After an opening quote: some later quote on the same line. -/
def afterQuote : List Char → Bool
  | [] => false
  | c :: cs => isQuote c || (c != '\n' && afterQuote cs)

/-- Scan for `re.search(r'["\'].*["\']', s)` (concept_extractor.py:116). -/
def quoteSearch : List Char → Bool
  | [] => false
  | c :: cs => (isQuote c && afterQuote cs) || quoteSearch cs

/-- Embeds `ConceptExtractor.ARITHMETIC_OPERATORS` (concept_extractor.py:35). -/
def ARITHMETIC_OPERATORS : List String := ["+", "-", "*", "/", "//", "%", "**"]

/-- Embeds `ConceptExtractor.COMPARISON_OPERATORS` (concept_extractor.py:36). -/
def COMPARISON_OPERATORS : List String := ["==", "!=", "<", ">", "<=", ">="]

/-- Embeds `ConceptExtractor.LOGICAL_OPERATORS` (concept_extractor.py:37). -/
def LOGICAL_OPERATORS : List String := ["and", "or", "not"]

/-- Any keyword of the group matches with word boundaries? -/
def kwAny (kws : List String) (low : List Char) : Bool :=
  kws.any (fun k => wordSearch k low)

/-- Embeds `ConceptExtractor._detect_from_source` (concept_extractor.py:44-119).
Keyword and logical-operator scans run on the lowercased, stripped line;
operator/bracket/call/pattern scans run on the original line, exactly as
in the source.  The Python set is modelled as the list of tags in the
order the source adds them (deduplication happens in
`extractConcepts`). -/
def detectFromSource (sourceLine : String) : List String :=
  if sourceLine.data.isEmpty then []
  else
    let low := trimChars (sourceLine.data.map Char.toLower)
    let orig := sourceLine.data
    (if kwAny ["if", "elif", "else"] low then ["conditional"] else []) ++
    (if kwAny ["for", "while", "in"] low then ["iteration"] else []) ++
    (if kwAny ["def", "return"] low then ["function_call"] else []) ++
    (if kwAny ["try", "except", "finally", "raise"] low then
      ["exception_handling"] else []) ++
    (if ARITHMETIC_OPERATORS.any (fun op => containsL op.data orig) then
      ["arithmetic"] else []) ++
    (if COMPARISON_OPERATORS.any (fun op => containsL op.data orig) then
      ["comparison"] else []) ++
    (if LOGICAL_OPERATORS.any (fun op => wordSearch op low) then
      ["logical_operation"] else []) ++
    (if hasChar '=' orig && !containsL ['=', '='] orig &&
        !containsL ['!', '='] orig then ["assignment"] else []) ++
    (if hasChar '[' orig && hasChar ']' orig then ["indexing"] else []) ++
    (if callSearch orig then ["function_call"] else []) ++
    (if comprehSearch orig then ["list_comprehension"] else []) ++
    (if hasChar '\x7b' orig && hasChar ':' orig && hasChar '\x7d' orig then
      ["dictionary"] else []) ++
    (if quoteSearch orig then ["string"] else [])

/-- Python `isinstance(v, (int, float))`; booleans are ints in Python. -/
def isNum : Value → Bool
  | Value.int _ => true
  | Value.bool _ => true
  | _ => false

/-- Value-category tags for one created variable
(concept_extractor.py:141-150); the isinstance chain tests list, dict,
(int, float), str in order. -/
def createdTypeTags : Value → List String
  | Value.list _ => ["list"]
  | Value.dict _ => ["dictionary"]
  | Value.bool _ => ["numeric"]
  | Value.int _ => ["numeric"]
  | Value.str _ => ["string"]
  | _ => []

/-- Tags for one modified variable (concept_extractor.py:157-170). -/
def modifiedTags (c : VariableChange) : List String :=
  (if isNum c.old_value && isNum c.new_value then ["arithmetic"] else []) ++
  (match c.old_value, c.new_value with
   | Value.list xs, Value.list ys =>
       if ys.length > xs.length then ["list_append"]
       else if ys.length < xs.length then ["list_removal"]
       else []
   | _, _ => [])

/-- Embeds `ConceptExtractor._detect_from_state_diff` (concept_extractor.py:121-176). -/
def detectFromStateDiff (d : StateDiff) : List String :=
  if !d.has_changes then []
  else
    (if !d.created.isEmpty then
      "assignment" :: d.created.flatMap (fun c => createdTypeTags c.new_value)
    else []) ++
    (if !d.modified.isEmpty then
      "mutation" :: d.modified.flatMap modifiedTags
    else []) ++
    (if !d.removed.isEmpty then ["scope"] else [])

/-- Embeds `ConceptExtractor._detect_from_event` (concept_extractor.py:178-206). -/
def detectFromEvent (event : String) (prevDepth currDepth : Int) : List String :=
  (if currDepth > prevDepth then ["function_call"] else []) ++
  (if currDepth < prevDepth then ["function_return"] else []) ++
  (if event == "call" then ["function_call"]
   else if event == "return" then ["function_return"]
   else [])

/-- Insert a tag into a strictly sorted tag list, keeping it strictly
sorted and duplicate-free. -/
def insertTag (x : String) : List String → List String
  | [] => [x]
  | y :: ys =>
      if tagLt x y then x :: y :: ys
      else if x = y then y :: ys
      else y :: insertTag x ys

/-- Python `sorted(list(set));` the set union of the three signal lists in
canonical sorted order. -/
def sortDedup (l : List String) : List String := l.foldr insertTag []

/-- Embeds `ConceptExtractor.extract_concepts` (concept_extractor.py:208-252):
sorted, deduplicated union of the three signal sets; the previous depth
defaults to 0 when there is no previous step. -/
def extractConcepts (step : PStep) (diff : StateDiff)
    (prevStep : Option PStep) : List String :=
  sortDedup
    (detectFromSource step.source ++
     detectFromStateDiff diff ++
     detectFromEvent step.event
       (match prevStep with
        | Option.some p => p.call_stack_depth
        | Option.none => 0)
       step.call_stack_depth)

/-- Loop of `ConceptExtractor.extract_trace_concepts`
(concept_extractor.py:273-279), threading the previous step. -/
def extractTraceConceptsAux (prev : Option PStep) :
    List (PStep × StateDiff) → List (List String)
  | [] => []
  | (s, d) :: rest =>
      extractConcepts s d prev :: extractTraceConceptsAux (Option.some s) rest

/-- Embeds `ConceptExtractor.extract_trace_concepts` (concept_extractor.py:254-282)
as the Python function computes it: on mismatched lengths it logs a
warning and returns `[]`; otherwise one concept list per zipped step. -/
def extractTraceConceptsList (trace : List PStep) (diffs : List StateDiff) :
    List (List String) :=
  if trace.length == diffs.length then
    extractTraceConceptsAux Option.none (trace.zip diffs)
  else []

/-- Embeds `ConceptExtractor.extract_trace_concepts` with exceptional outcomes
made expressible in the result type: the Python function never raises —
every control path returns normally — so every result is `Except.ok`. -/
def extractTraceConcepts (trace : List PStep) (diffs : List StateDiff) :
    Except String (List (List String)) :=
  Except.ok (extractTraceConceptsList trace diffs)

/-- Escape one character for a Python string repr quoted with `q`
(backslash, the quote, and the common control characters; rarer
`\xNN` escapes do not occur in the traced values). -/
def escChar (q : Char) (c : Char) : String :=
  if c == '\\' then "\\\\"
  else if c == q then "\\" ++ String.singleton q
  else if c == '\n' then "\\n"
  else if c == '\t' then "\\t"
  else if c == '\r' then "\\r"
  else String.singleton c

/-- Escape a whole string for a Python repr quoted with `q`. -/
def escWith (q : Char) (s : String) : String :=
  String.join (s.data.map (escChar q))

/-- Python `repr` of a string: single quotes, unless the string contains
a single quote and no double quote. -/
def pyStrRepr (s : String) : String :=
  if s.contains '\'' && !s.contains '"' then "\"" ++ escWith '"' s ++ "\""
  else "'" ++ escWith '\'' s ++ "'"

mutual

/-- Python `str(value)` (equal to `repr` for the container and numeric
values it is applied to in `_format_value`). -/
def pyRepr : Value → String
  | Value.none => "None"
  | Value.bool b => if b then "True" else "False"
  | Value.int n => toString n
  | Value.str s => pyStrRepr s
  | Value.list xs => "[" ++ pyReprSeq xs ++ "]"
  | Value.tuple [x] => "(" ++ pyRepr x ++ ",)"
  | Value.tuple xs => "(" ++ pyReprSeq xs ++ ")"
  | Value.dict xs => "\x7b" ++ pyReprEntries xs ++ "\x7d"
  | Value.obj _ s => s

/-- Comma-separated reprs of a value sequence. -/
def pyReprSeq : List Value → String
  | [] => ""
  | [x] => pyRepr x
  | x :: xs => pyRepr x ++ ", " ++ pyReprSeq xs

/-- Comma-separated `key: value` reprs of dict entries. -/
def pyReprEntries : List (String × Value) → String
  | [] => ""
  | [(k, v)] => pyStrRepr k ++ ": " ++ pyRepr v
  | (k, v) :: xs => pyStrRepr k ++ ": " ++ pyRepr v ++ ", " ++ pyReprEntries xs

end

/-- Python `type(value).__name__` on modelled values. -/
def typeName : Value → String
  | Value.none => "NoneType"
  | Value.bool _ => "bool"
  | Value.int _ => "int"
  | Value.str _ => "str"
  | Value.list _ => "list"
  | Value.tuple _ => "tuple"
  | Value.dict _ => "dict"
  | Value.obj t _ => t

/-- Embeds `StepExplainer._format_value` (step_explainer.py:70-85). -/
def formatValue : Value → String
  | Value.none => "None"
  | Value.str s => "\"" ++ s ++ "\""
  | Value.list xs =>
      if xs.length > 5 then "list with " ++ toString xs.length ++ " items"
      else pyRepr (Value.list xs)
  | Value.tuple xs =>
      if xs.length > 5 then "tuple with " ++ toString xs.length ++ " items"
      else pyRepr (Value.tuple xs)
  | Value.dict xs =>
      if xs.length > 3 then "dict with " ++ toString xs.length ++ " keys"
      else pyRepr (Value.dict xs)
  | v => pyRepr v

/-- Python `' '.join(words)`. -/
def joinSp : List String → String
  | [] => ""
  | [w] => w
  | w :: ws => w ++ " " ++ joinSp ws

/-- Python `s.split()` (split on whitespace runs, dropping empties). -/
def pySplitWs (s : String) : List String :=
  (s.split (fun c => reSpace c)).filter (fun w => !w.isEmpty)

/-- Embeds `KnowledgeRetriever._build_query` (knowledge_retrieval.py:37-61). -/
def buildQuery (concepts : List String) (sourceLine : String) : String :=
  let conceptStr := joinSp concepts
  let cleanedSource := joinSp (pySplitWs sourceLine)
  if !concepts.isEmpty then conceptStr ++ " " ++ cleanedSource
  else cleanedSource

/-- The `priority_concepts` table of
`KnowledgeRetriever._select_primary_concept` (knowledge_retrieval.py:76-87). -/
def priorityConcepts : List String :=
  ["iteration", "conditional", "function_call", "recursion",
   "list_comprehension", "exception_handling", "dictionary", "list",
   "arithmetic", "assignment"]

/-- Embeds `KnowledgeRetriever._select_primary_concept`
(knowledge_retrieval.py:63-97): first priority concept present, else the
first concept, else `None`. -/
def selectPrimaryConcept (concepts : List String) : Option String :=
  match priorityConcepts.find? (fun p => concepts.contains p) with
  | Option.some p => Option.some p
  | Option.none => concepts.head?

/-- The external retrieval collaborator (`retrieval/retriever.py`, backed
by a remote vector store): `retrieveByConcept query hint top_k` stands
for `retrieve_by_concept`, `retrieveGeneral query top_k` for `retrieve`.
An `Except.error` models the call raising (timeout, unreachable service,
malformed response …); the theorems below quantify over every oracle, so
they cover every collaborator behaviour. -/
structure RetrievalOracle where
  retrieveByConcept : String → String → Nat → Except String (List String)
  retrieveGeneral : String → Nat → Except String (List String)

/-- Embeds `KnowledgeRetriever.retrieve_for_step` (knowledge_retrieval.py:99-148):
no concepts and no source yields `[]`; otherwise the whole body runs in a
`try` whose `except` returns `[]`, so any raising collaborator call makes
the result `[]`.  Concept-filtered retrieval is tried first when enabled
and a (truthy) primary concept exists, and its nonempty result is
returned; otherwise the general query is the fallback. -/
def retrieveForStep (o : RetrievalOracle) (topK : Nat)
    (concepts : List String) (sourceLine : String)
    (useConceptFilter : Bool) : List String :=
  if concepts.isEmpty && sourceLine.isEmpty then []
  else
    let query := buildQuery concepts sourceLine
    let general : List String :=
      match o.retrieveGeneral query topK with
      | Except.error _ => []
      | Except.ok k => k
    if useConceptFilter && !concepts.isEmpty then
      match selectPrimaryConcept concepts with
      | Option.some pc =>
          if pc.isEmpty then general
          else
            match o.retrieveByConcept query pc topK with
            | Except.error _ => []
            | Except.ok knowledge =>
                if !knowledge.isEmpty then knowledge else general
      | Option.none => general
    else general

/-- Embeds `StepExplainer._extract_core_concept` (step_explainer.py:87-164) is
treated as an opaque pure text function from the retrieved knowledge and
the level to the insight segment: the claims under verification are
independent of its markdown-stripping and sentence-selection internals,
and each theorem quantifies over every such function. -/
abbrev CoreExtractor := List String → String → String

/-- Beginner-level created/modified sentences (step_explainer.py:185-199). -/
def beginnerParts (diff : StateDiff) : List String :=
  diff.created.map (fun c =>
    "A new variable named " ++ c.name ++ " is created and stores the value " ++
    formatValue c.new_value ++ ". This is a " ++ typeName c.new_value ++
    " type in Python.") ++
  diff.modified.map (fun c =>
    "The variable " ++ c.name ++ " changes its value from " ++
    formatValue c.old_value ++ " to " ++ formatValue c.new_value ++
    ". The old value is replaced with the new value in memory.")

/-- Medium-level created/modified phrases (step_explainer.py:218-234). -/
def mediumParts (diff : StateDiff) : List String :=
  (if diff.created.length == 1 then
    diff.created.map (fun c =>
      "Variable " ++ c.name ++ " is assigned the value " ++
      formatValue c.new_value ++ " (" ++ typeName c.new_value ++ ").")
  else if !diff.created.isEmpty then
    (diff.created.take 2).map (fun c =>
      c.name ++ " = " ++ formatValue c.new_value ++ ".")
  else []) ++
  (diff.modified.take 2).map (fun c =>
    c.name ++ " updated from " ++ formatValue c.old_value ++ " to " ++
    formatValue c.new_value ++ ".")

/-- Interview-level sentence for one created variable
(step_explainer.py:246-261). -/
def irCreated (c : VariableChange) : String :=
  match c.new_value with
  | Value.list _ => c.name ++
      " initialized as empty list (dynamic array, O(1) append amortized, O(n) access by index)."
  | Value.dict _ => c.name ++
      " initialized as dictionary (hash table implementation, O(1) average case insertion/lookup, O(n) worst case)."
  | Value.int _ => c.name ++ " = " ++ formatValue c.new_value ++
      " (primitive immutable type, stored by value, assignment is O(1))."
  | Value.bool _ => c.name ++ " = " ++ formatValue c.new_value ++
      " (primitive immutable type, stored by value, assignment is O(1))."
  | Value.str _ => c.name ++ " = " ++ formatValue c.new_value ++
      " (immutable string, stored as character array, concatenation creates new object)."
  | v => c.name ++ " = " ++ formatValue v ++ " (type: " ++ typeName v ++ ")."

/-- Interview-level sentence for one modified variable
(step_explainer.py:264-280). -/
def irModified (c : VariableChange) : String :=
  match c.old_value, c.new_value with
  | Value.list xs, Value.list ys =>
      let d : Int := (ys.length : Int) - (xs.length : Int)
      if d > 0 then
        c.name ++ " modified: " ++ formatValue (Value.list xs) ++ " → " ++
        formatValue (Value.list ys) ++ ". List grew by " ++ toString d ++
        " element(s) via in-place mutation (O(1) amortized append, potential array resize)."
      else if d < 0 then
        c.name ++ " modified: " ++ formatValue (Value.list xs) ++ " → " ++
        formatValue (Value.list ys) ++ ". List reduced by " ++
        toString d.natAbs ++
        " element(s) (O(n) for removal from middle, O(1) for pop)."
      else
        c.name ++ " modified: " ++ formatValue (Value.list xs) ++ " → " ++
        formatValue (Value.list ys) ++
        ". List mutated in place (element update is O(1))."
  | Value.dict xs, Value.dict ys =>
      c.name ++ " modified: " ++ formatValue (Value.dict xs) ++ " → " ++
      formatValue (Value.dict ys) ++
      ". Dictionary mutated (hash table update is O(1) average case)."
  | o, n =>
      c.name ++ " reassigned: " ++ formatValue o ++ " → " ++ formatValue n ++
      ". Variable rebinding creates new reference, old object may be garbage collected."

/-- The knowledge/insight part appended by every level when knowledge is
present and the extracted concept text is nonempty
(step_explainer.py:206-209, 237-240, 283-286). -/
def knowledgePart (ecc : CoreExtractor) (knowledge : List String)
    (level : String) : List String :=
  if !knowledge.isEmpty then
    let c := ecc knowledge level
    if !c.isEmpty then [c] else []
  else []

/-- Embeds `StepExplainer._generate_explanation` (step_explainer.py:166-298).
The `concepts` argument is accepted and unused, as in the source. -/
def genExplanation (ecc : CoreExtractor) (step : PStep) (diff : StateDiff)
    (_concepts : List String) (knowledge : List String)
    (level : String) : String :=
  let source := step.source
  let line := step.line
  let parts : List String :=
    if level == "beginner" then
      let p1 := if diff.has_changes then beginnerParts diff else []
      let p2 := p1 ++
        (if !source.isEmpty && p1.isEmpty then
          ["Line " ++ toString line ++ " executes the code: " ++ source ++
           ". This line runs but doesn't create or change any variables yet."]
        else [])
      let p3 := p2 ++ knowledgePart ecc knowledge level
      p3 ++
        (if (joinSp p3).length < 80 && diff.has_changes &&
            !diff.created.isEmpty then
          ["Variables are like containers that hold values in your program so you can use them later."]
        else [])
    else if level == "medium" then
      (if diff.has_changes then mediumParts diff else []) ++
        knowledgePart ecc knowledge level
    else
      (if diff.has_changes then
        diff.created.map irCreated ++ diff.modified.map irModified
      else []) ++ knowledgePart ecc knowledge level
  if parts.isEmpty then
    if level == "beginner" then
      "Line " ++ toString line ++
      " executes. This line is running as part of the program flow."
    else if level == "medium" then "Executing line " ++ toString line
    else "L" ++ toString line ++ ": " ++
      (if !source.isEmpty then source else "execution")
  else joinSp parts

/-- One element of the enriched output list
(step_explainer.py:337-342); `vars` models the `'variables'` key. -/
structure EnrichedStep where
  step : Nat
  line : Int
  vars : Snap
  explanation : String
deriving Repr

/-- Body of the per-step loop of
`StepExplainer.generate_step_explanations` (step_explainer.py:325-342):
retrieval is gated on `diff.has_changes() and concepts`, and the entry
carries the step's index, line, variables and explanation. -/
def explainStepEntry (o : RetrievalOracle) (ecc : CoreExtractor)
    (topK : Nat) (level : String) (step : PStep) (diff : StateDiff)
    (concepts : List String) : EnrichedStep :=
  let knowledge :=
    if diff.has_changes && !concepts.isEmpty then
      retrieveForStep o topK concepts step.source true
    else []
  { step := step.step
    line := step.line
    vars := step.vars
    explanation := genExplanation ecc step diff concepts knowledge level }

/-- Embeds `StepExplainer.generate_step_explanations` (step_explainer.py:300-345)
for an explainer configured with `level` (already lowercased at
construction) and fan-out `topK`; the `if not trace: return []` early
exit coincides with the pipeline on the empty trace. -/
def generateStepExplanations (o : RetrievalOracle) (ecc : CoreExtractor)
    (topK : Nat) (level : String) (code : String)
    (trace : List RawStep) : List EnrichedStep :=
  let processed := processTrace code trace
  let diffs := computeTraceDiffs processed
  let conceptsList := extractTraceConceptsList processed diffs
  ((processed.zip diffs).zip conceptsList).map
    (fun x => explainStepEntry o ecc topK level x.1.1 x.1.2 x.2)

theorem lexLt_trans : ∀ {a b c : List Char}, lexLt a b = true →
    lexLt b c = true → lexLt a c = true := by
  intro a
  induction a with
  | nil =>
      intro b c h1 h2
      cases b with
      | nil => cases h1
      | cons y ys =>
          cases c with
          | nil => cases h2
          | cons z zs => rfl
  | cons x xs ih =>
      intro b c h1 h2
      cases b with
      | nil => cases h1
      | cons y ys =>
          cases c with
          | nil => cases h2
          | cons z zs =>
              simp only [lexLt] at h1 h2 ⊢
              rcases lt_trichotomy x y with hxy | hxy | hxy
              · rcases lt_trichotomy y z with hyz | hyz | hyz
                · rw [if_pos (lt_trans hxy hyz)]
                · subst hyz
                  rw [if_pos hxy]
                · rw [if_neg (asymm hyz), if_pos hyz] at h2
                  cases h2
              · subst hxy
                rw [if_neg (lt_irrefl x), if_neg (lt_irrefl x)] at h1
                rcases lt_trichotomy x z with hxz | hxz | hxz
                · rw [if_pos hxz]
                · subst hxz
                  rw [if_neg (lt_irrefl x), if_neg (lt_irrefl x)] at h2 ⊢
                  exact ih h1 h2
                · rw [if_neg (asymm hxz), if_pos hxz] at h2
                  cases h2
              · rw [if_neg (asymm hxy), if_pos hxy] at h1
                cases h1

theorem lexLt_of_not_of_ne : ∀ {a b : List Char}, lexLt a b = false →
    a ≠ b → lexLt b a = true := by
  intro a
  induction a with
  | nil =>
      intro b h1 h2
      cases b with
      | nil => exact absurd rfl h2
      | cons y ys => cases h1
  | cons x xs ih =>
      intro b h1 h2
      cases b with
      | nil => rfl
      | cons y ys =>
          simp only [lexLt] at h1 ⊢
          rcases lt_trichotomy x y with hxy | hxy | hxy
          · rw [if_pos hxy] at h1
            cases h1
          · subst hxy
            rw [if_neg (lt_irrefl x), if_neg (lt_irrefl x)] at h1 ⊢
            refine ih h1 ?_
            intro he
            exact h2 (by rw [he])
          · rw [if_pos hxy]

theorem tagLt_trans {x y z : String} (h1 : tagLt x y = true)
    (h2 : tagLt y z = true) : tagLt x z = true :=
  lexLt_trans h1 h2

theorem tagLt_of_not_of_ne {x y : String} (h1 : tagLt x y = false)
    (h2 : x ≠ y) : tagLt y x = true := by
  refine lexLt_of_not_of_ne h1 ?_
  intro hd
  apply h2
  cases x
  cases y
  exact congrArg String.mk hd

theorem mem_insertTag (x b : String) (l : List String) :
    b ∈ insertTag x l ↔ b = x ∨ b ∈ l := by
  induction l with
  | nil => simp [insertTag]
  | cons y ys ih =>
      by_cases h1 : tagLt x y = true
      · have he : insertTag x (y :: ys) = x :: y :: ys := by
          simp [insertTag, h1]
        rw [he]
        exact List.mem_cons
      · by_cases h2 : x = y
        · subst h2
          have he : insertTag x (x :: ys) = x :: ys := by
            simp [insertTag, h1]
          rw [he, List.mem_cons]
          tauto
        · have he : insertTag x (y :: ys) = y :: insertTag x ys := by
            simp [insertTag, h1, h2]
          rw [he, List.mem_cons, ih, List.mem_cons]
          tauto

theorem pairwise_insertTag (x : String) (l : List String)
    (h : l.Pairwise (fun a b => tagLt a b = true)) :
    (insertTag x l).Pairwise (fun a b => tagLt a b = true) := by
  induction l with
  | nil => simp [insertTag]
  | cons y ys ih =>
      rw [List.pairwise_cons] at h
      obtain ⟨hy, hys⟩ := h
      by_cases h1 : tagLt x y = true
      · simp only [insertTag, if_pos h1]
        refine List.pairwise_cons.mpr ⟨?_, List.pairwise_cons.mpr ⟨hy, hys⟩⟩
        intro b hb
        rcases List.mem_cons.mp hb with rfl | hb
        · exact h1
        · exact tagLt_trans h1 (hy b hb)
      · by_cases h2 : x = y
        · subst h2
          have he : insertTag x (x :: ys) = x :: ys := by
            simp [insertTag, h1]
          rw [he]
          exact List.pairwise_cons.mpr ⟨hy, hys⟩
        · have he : insertTag x (y :: ys) = y :: insertTag x ys := by
            simp [insertTag, h1, h2]
          rw [he]
          refine List.pairwise_cons.mpr ⟨?_, ih hys⟩
          intro b hb
          rcases (mem_insertTag x b ys).mp hb with rfl | hb2
          · exact tagLt_of_not_of_ne (Bool.eq_false_iff.mpr h1) h2
          · exact hy b hb2

theorem mem_sortDedup (l : List String) (b : String) :
    b ∈ sortDedup l ↔ b ∈ l := by
  induction l with
  | nil => simp [sortDedup]
  | cons y ys ih =>
      have he : sortDedup (y :: ys) = insertTag y (sortDedup ys) := rfl
      rw [he, mem_insertTag, List.mem_cons, ih]

theorem pairwise_sortDedup (l : List String) :
    (sortDedup l).Pairwise (fun a b => tagLt a b = true) := by
  induction l with
  | nil => simp [sortDedup]
  | cons y ys ih =>
      have he : sortDedup (y :: ys) = insertTag y (sortDedup ys) := rfl
      rw [he]
      exact pairwise_insertTag y (sortDedup ys) ih

theorem containsKey_iff (s : Snap) (k : String) :
    containsKey s k = true ↔ k ∈ keysOf s := by
  simp [containsKey, keysOf, List.any_eq_true, List.mem_map, beq_iff_eq]

theorem lookupV_of_mem (s : Snap) (k : String) (v : Value)
    (hmem : (k, v) ∈ s) (hnd : (keysOf s).Nodup) : lookupV s k = v := by
  induction s with
  | nil => cases hmem
  | cons kv rest ih =>
      simp only [keysOf, List.map_cons, List.nodup_cons] at hnd
      rcases List.mem_cons.mp hmem with h | h
      · subst h
        simp [lookupV, List.find?]
      · have hk : ¬(kv.1 == k) = true := by
          simp only [beq_iff_eq]
          intro he
          apply hnd.1
          rw [he]
          exact List.mem_map.mpr ⟨(k, v), h, rfl⟩
        simp only [lookupV, List.find?, hk]
        have := ih h (by simpa [keysOf] using hnd.2)
        simpa [lookupV] using this

/-- Names of the created changes in a diff. -/
def createdNames (d : StateDiff) : List String :=
  d.created.map VariableChange.name

/-- Names of the modified changes in a diff. -/
def modifiedNames (d : StateDiff) : List String :=
  d.modified.map VariableChange.name

/-- Names of the removed changes in a diff. -/
def removedNames (d : StateDiff) : List String :=
  d.removed.map VariableChange.name

theorem computeTraceDiffsAux_eq_zipWith (prev : Option Snap)
    (l : List PStep) :
    computeTraceDiffsAux prev l =
      List.zipWith computeDiff (prev :: l.map (fun s => Option.some s.vars))
        (l.map (fun s => s.vars)) := by
  induction l generalizing prev with
  | nil => rfl
  | cons s rest ih =>
      simp only [computeTraceDiffsAux, List.map_cons, List.zipWith_cons_cons]
      rw [ih]

theorem length_computeTraceDiffsAux (prev : Option Snap) (l : List PStep) :
    (computeTraceDiffsAux prev l).length = l.length := by
  induction l generalizing prev with
  | nil => rfl
  | cons s rest ih => simp [computeTraceDiffsAux, ih]

theorem length_extractTraceConceptsAux (prev : Option PStep)
    (l : List (PStep × StateDiff)) :
    (extractTraceConceptsAux prev l).length = l.length := by
  induction l generalizing prev with
  | nil => rfl
  | cons sd rest ih =>
      cases sd
      simp [extractTraceConceptsAux, ih]

/-- C4: for every processed trace (including the empty one), the
trace-level diff fold produces exactly one StateDiff per step — its
output has the same length as the input trace — and it folds over
consecutive snapshot pairs with the previous snapshot seeded as `none`
for step 1. -/
theorem compute_trace_diffs_one_per_step (trace : List PStep) :
    (computeTraceDiffs trace).length = trace.length ∧
    computeTraceDiffs trace =
      List.zipWith computeDiff
        (Option.none :: trace.map (fun s => Option.some s.vars))
        (trace.map (fun s => s.vars)) :=
  ⟨length_computeTraceDiffsAux Option.none trace,
   computeTraceDiffsAux_eq_zipWith Option.none trace⟩

/-- C2: the normalizer drops a step iff its line number and variable
snapshot equal those of the immediately preceding *retained* step: the
processed output is exactly the enrichment (re-indexed 1..N) of the
claim-side filter `specRetain`; the retained steps form a subsequence of
the raw trace (nothing reordered or invented); and a two-step trace
collapses to one retained step exactly when the second step repeats the
first's line and snapshot. -/
theorem process_trace_drops_iff_same_as_retained (code : String)
    (trace : List RawStep) (s s2 : RawStep) :
    processTrace code trace =
      enrichAll (code.splitOn "\n") 0 (specRetain trace) ∧
    List.Sublist (specRetain trace) trace ∧
    (processTrace code [s, s2]).length =
      (if sameLineAndVars s2 s then 1 else 2) := by
  refine ⟨processTraceAux_eq_enrich_specRetain (code.splitOn "\n")
    Option.none 0 trace, specRetainAux_sublist Option.none trace, ?_⟩
  by_cases h : sameLineAndVars s2 s = true
  · simp [processTrace, processTraceAux, isRedundantFrame, h]
  · have hf : sameLineAndVars s2 s = false := Bool.eq_false_iff.mpr h
    simp [processTrace, processTraceAux, isRedundantFrame, hf]

/-- A concrete processed step used to instantiate hypotheses. -/
def trivialStep : PStep :=
  { step := 1, line := 1, source := "", function := "main", vars := [],
    event := "line", call_stack_depth := 0 }

/-- C1 counterexample: feeding a diffs list shorter than the trace to the
trace-level concept-extraction fold does not raise anything: at this
concrete mismatched input (one step, zero diffs) the fold returns the
ordinary value `Except.ok []` rather than an error. -/
theorem extract_trace_concepts_mismatch_not_raise :
    extractTraceConcepts [trivialStep] [] = Except.ok [] := rfl

/-- C1 (amended): on a diffs list whose length differs from the trace the
concept-extraction fold does not truncate or zip to the shorter length —
but it raises no AlignmentError either: it logs a warning and returns
normally with the empty list. -/
theorem extract_trace_concepts_mismatch_returns_empty
    (trace : List PStep) (diffs : List StateDiff)
    (h : trace.length ≠ diffs.length) :
    extractTraceConcepts trace diffs = Except.ok [] := by
  have hb : (trace.length == diffs.length) = false := by simpa using h
  simp [extractTraceConcepts, extractTraceConceptsList, hb]

/-- Witness for the amended C1 theorem at a concrete mismatched input. -/
theorem extract_trace_concepts_mismatch_returns_empty_witness :
    ([trivialStep].length ≠ ([] : List StateDiff).length) ∧
    extractTraceConcepts [trivialStep] [] = Except.ok [] :=
  ⟨by decide,
   extract_trace_concepts_mismatch_returns_empty [trivialStep] [] (by decide)⟩

theorem isEmpty_false_of_ne_nil {p : Snap} (hp : p ≠ []) :
    p.isEmpty = false := by
  cases p
  · exact absurd rfl hp
  · rfl

theorem mem_createdNames_iff (p curr : Snap) (hp : p ≠ []) (name : String) :
    name ∈ createdNames (computeDiff (Option.some p) curr) ↔
      name ∈ keysOf curr ∧ name ∉ keysOf p := by
  have hpe := isEmpty_false_of_ne_nil hp
  simp only [createdNames, computeDiff, hpe, Bool.false_eq_true, if_false,
    List.map_map, List.mem_map, Function.comp, List.mem_filter, keysOf]
  constructor
  · rintro ⟨kv, ⟨hkv, hf⟩, rfl⟩
    refine ⟨⟨kv, hkv, rfl⟩, ?_⟩
    intro hk
    obtain ⟨kv2, hkv2, he2⟩ := hk
    have : containsKey p kv.1 = true :=
      (containsKey_iff p kv.1).mpr (by
        simpa [keysOf] using List.mem_map.mpr ⟨kv2, hkv2, he2⟩)
    simp [this] at hf
  · rintro ⟨⟨kv, hkv, rfl⟩, hkp⟩
    refine ⟨kv, ⟨hkv, ?_⟩, rfl⟩
    have : containsKey p kv.1 = false := by
      cases hc : containsKey p kv.1
      · rfl
      · exact absurd (by simpa [keysOf] using (containsKey_iff p kv.1).mp hc)
          hkp
    simp [this]

theorem mem_removedNames_iff (p curr : Snap) (hp : p ≠ []) (name : String) :
    name ∈ removedNames (computeDiff (Option.some p) curr) ↔
      name ∈ keysOf p ∧ name ∉ keysOf curr := by
  have hpe := isEmpty_false_of_ne_nil hp
  simp only [removedNames, computeDiff, hpe, Bool.false_eq_true, if_false,
    List.map_map, List.mem_map, Function.comp, List.mem_filter, keysOf]
  constructor
  · rintro ⟨kv, ⟨hkv, hf⟩, rfl⟩
    refine ⟨⟨kv, hkv, rfl⟩, ?_⟩
    intro hk
    obtain ⟨kv2, hkv2, he2⟩ := hk
    have : containsKey curr kv.1 = true :=
      (containsKey_iff curr kv.1).mpr (by
        simpa [keysOf] using List.mem_map.mpr ⟨kv2, hkv2, he2⟩)
    simp [this] at hf
  · rintro ⟨⟨kv, hkv, rfl⟩, hkc⟩
    refine ⟨kv, ⟨hkv, ?_⟩, rfl⟩
    have : containsKey curr kv.1 = false := by
      cases hc : containsKey curr kv.1
      · rfl
      · exact absurd (by simpa [keysOf] using (containsKey_iff curr kv.1).mp hc)
          hkc
    simp [this]

theorem mem_modifiedNames_iff (p curr : Snap) (hp : p ≠ [])
    (hndC : (keysOf curr).Nodup) (name : String) :
    name ∈ modifiedNames (computeDiff (Option.some p) curr) ↔
      name ∈ keysOf curr ∧ name ∈ keysOf p ∧
        pyEq (normalizeValue (lookupV p name))
          (normalizeValue (lookupV curr name)) = false := by
  have hpe := isEmpty_false_of_ne_nil hp
  simp only [modifiedNames, computeDiff, hpe, Bool.false_eq_true, if_false,
    List.map_map, List.mem_map, Function.comp, List.mem_filter]
  constructor
  · rintro ⟨kv, ⟨hkv, hf⟩, rfl⟩
    rw [Bool.and_eq_true] at hf
    obtain ⟨hck, hne⟩ := hf
    have hl : lookupV curr kv.1 = kv.2 :=
      lookupV_of_mem curr kv.1 kv.2 (by simpa using hkv) hndC
    refine ⟨List.mem_map.mpr ⟨kv, hkv, rfl⟩,
      (containsKey_iff p kv.1).mp hck, ?_⟩
    rw [hl]
    cases he : pyEq (normalizeValue (lookupV p kv.1)) (normalizeValue kv.2)
    · rfl
    · simp [he] at hne
  · rintro ⟨hkc, hkp, hne⟩
    obtain ⟨kv, hkv, rfl⟩ := List.mem_map.mp hkc
    have hl : lookupV curr kv.1 = kv.2 :=
      lookupV_of_mem curr kv.1 kv.2 (by simpa using hkv) hndC
    refine ⟨kv, ⟨hkv, ?_⟩, rfl⟩
    rw [Bool.and_eq_true]
    refine ⟨(containsKey_iff p kv.1).mpr hkp, ?_⟩
    rw [hl] at hne
    simp [hne]

/-- C5: the created/modified/removed name lists of every computed
StateDiff partition the union of the two snapshots' variable names: no
name is classified twice, and every classified name belongs to one of
the snapshots. -/
theorem state_diff_partitions_names (prev : Option Snap) (curr : Snap)
    (name : String) :
    (¬(name ∈ createdNames (computeDiff prev curr) ∧
        name ∈ modifiedNames (computeDiff prev curr)) ∧
     ¬(name ∈ createdNames (computeDiff prev curr) ∧
        name ∈ removedNames (computeDiff prev curr)) ∧
     ¬(name ∈ modifiedNames (computeDiff prev curr) ∧
        name ∈ removedNames (computeDiff prev curr))) ∧
    ((name ∈ createdNames (computeDiff prev curr) ∨
      name ∈ modifiedNames (computeDiff prev curr) ∨
      name ∈ removedNames (computeDiff prev curr)) →
      name ∈ keysOf curr ∨ name ∈ keysOf (prev.getD [])) := by
  cases prev with
  | none =>
      constructor
      · refine ⟨?_, ?_, ?_⟩ <;> rintro ⟨h1, h2⟩ <;>
          simp [createdNames, modifiedNames, removedNames, computeDiff]
            at h1 h2
      · rintro (h | h | h)
        · left
          simp only [createdNames, computeDiff, List.map_map, List.mem_map,
            Function.comp] at h
          obtain ⟨kv, hkv, rfl⟩ := h
          exact List.mem_map.mpr ⟨kv, hkv, rfl⟩
        · simp [modifiedNames, computeDiff] at h
        · simp [removedNames, computeDiff] at h
  | some p =>
      by_cases hp : p = []
      · subst hp
        constructor
        · refine ⟨?_, ?_, ?_⟩ <;> rintro ⟨h1, h2⟩ <;>
            simp [createdNames, modifiedNames, removedNames, computeDiff]
              at h1 h2
        · rintro (h | h | h)
          · left
            simp only [createdNames, computeDiff, List.isEmpty_nil,
              if_true, List.map_map, List.mem_map, Function.comp] at h
            obtain ⟨kv, hkv, rfl⟩ := h
            exact List.mem_map.mpr ⟨kv, hkv, rfl⟩
          · simp [modifiedNames, computeDiff] at h
          · simp [removedNames, computeDiff] at h
      · have hpe := isEmpty_false_of_ne_nil hp
        have hcreate := mem_createdNames_iff p curr hp name
        have hremove := mem_removedNames_iff p curr hp name
        have hmodsub : name ∈ modifiedNames (computeDiff (Option.some p) curr) →
            name ∈ keysOf curr ∧ name ∈ keysOf p := by
          intro h
          simp only [modifiedNames, computeDiff, hpe, Bool.false_eq_true,
            if_false, List.map_map, List.mem_map, Function.comp,
            List.mem_filter] at h
          obtain ⟨kv, ⟨hkv, hf⟩, rfl⟩ := h
          rw [Bool.and_eq_true] at hf
          exact ⟨List.mem_map.mpr ⟨kv, hkv, rfl⟩,
            (containsKey_iff p kv.1).mp hf.1⟩
        constructor
        · refine ⟨?_, ?_, ?_⟩ <;> rintro ⟨h1, h2⟩
          · exact (hcreate.mp h1).2 (hmodsub h2).2
          · exact (hcreate.mp h1).2 (hremove.mp h2).1
          · exact (hremove.mp h2).2 (hmodsub h1).1
        · rintro (h | h | h)
          · exact Or.inl (hcreate.mp h).1
          · exact Or.inl (hmodsub h).1
          · exact Or.inr (by simpa using (hremove.mp h).1)

/-- Witness for C5's coverage implication at a concrete diff. -/
theorem state_diff_partitions_names_witness :
    "a" ∈ keysOf [("a", Value.int 5)] ∨
      "a" ∈ keysOf ((Option.none : Option Snap).getD []) :=
  (state_diff_partitions_names Option.none [("a", Value.int 5)] "a").2
    (Or.inl (by decide))

/-- C3: when the previous snapshot is absent or empty every current name
is classified created (and nothing is modified or removed); otherwise
created = current − previous and removed = previous − current as name
sets, and a common name is modified exactly when its normalized value
differs; diffing {a:5} → {a:5, b:3} yields created = [b:3] only. -/
theorem compute_diff_created_modified_removed (curr p : Snap)
    (name : String) (hp : p ≠ []) (hndC : (keysOf curr).Nodup) :
    (createdNames (computeDiff Option.none curr) = keysOf curr ∧
     (computeDiff Option.none curr).modified = [] ∧
     (computeDiff Option.none curr).removed = []) ∧
    (createdNames (computeDiff (Option.some []) curr) = keysOf curr ∧
     (computeDiff (Option.some []) curr).modified = [] ∧
     (computeDiff (Option.some []) curr).removed = []) ∧
    (name ∈ createdNames (computeDiff (Option.some p) curr) ↔
      name ∈ keysOf curr ∧ name ∉ keysOf p) ∧
    (name ∈ removedNames (computeDiff (Option.some p) curr) ↔
      name ∈ keysOf p ∧ name ∉ keysOf curr) ∧
    (name ∈ modifiedNames (computeDiff (Option.some p) curr) ↔
      name ∈ keysOf curr ∧ name ∈ keysOf p ∧
        pyEq (normalizeValue (lookupV p name))
          (normalizeValue (lookupV curr name)) = false) ∧
    computeDiff (Option.some [("a", Value.int 5)])
        [("a", Value.int 5), ("b", Value.int 3)] =
      { created := [⟨"b", "created", Value.none, Value.int 3⟩],
        modified := [], removed := [] } := by
  refine ⟨⟨?_, rfl, rfl⟩, ⟨?_, rfl, rfl⟩,
    mem_createdNames_iff p curr hp name,
    mem_removedNames_iff p curr hp name,
    mem_modifiedNames_iff p curr hp hndC name, rfl⟩
  · simp only [createdNames, computeDiff, List.map_map]
    rfl
  · simp only [createdNames, computeDiff, List.isEmpty_nil, if_true,
      List.map_map]
    rfl

/-- Witness for C3's created-name characterization at {a:5} → {a:5, b:3}. -/
theorem compute_diff_created_modified_removed_witness :
    "b" ∈ createdNames (computeDiff (Option.some [("a", Value.int 5)])
        [("a", Value.int 5), ("b", Value.int 3)]) :=
  (compute_diff_created_modified_removed
      [("a", Value.int 5), ("b", Value.int 3)] [("a", Value.int 5)] "b"
      (List.cons_ne_nil _ _) (by decide)).2.2.1.mpr (by decide)

/-- Ordered-collection payload of a value (list or tuple). -/
def seqElems : Value → Option (List Value)
  | Value.list xs => Option.some xs
  | Value.tuple xs => Option.some xs
  | _ => Option.none

/-- C6: a common variable whose old and new values are ordered
collections with Python-equal elements in the same order (e.g. a tuple
in one snapshot and a list with the same elements in the other) is never
classified modified: both values normalize to the common
ordered-sequence form and compare elementwise there. -/
theorem equal_ordered_collections_not_modified (p curr : Snap)
    (name : String) (vOld vNew : Value) (xs ys : List Value)
    (hpmem : (name, vOld) ∈ p) (hcmem : (name, vNew) ∈ curr)
    (hndP : (keysOf p).Nodup) (hndC : (keysOf curr).Nodup)
    (hxs : seqElems vOld = Option.some xs)
    (hys : seqElems vNew = Option.some ys)
    (heq : pyEqList xs ys = true) :
    name ∉ modifiedNames (computeDiff (Option.some p) curr) := by
  have hp : p ≠ [] := by
    intro h
    subst h
    cases hpmem
  rw [mem_modifiedNames_iff p curr hp hndC name]
  rintro ⟨h1, h2, h3⟩
  rw [lookupV_of_mem p name vOld hpmem hndP,
    lookupV_of_mem curr name vNew hcmem hndC] at h3
  have hnx : normalizeValue vOld = Value.list xs := by
    cases vOld <;> simp [seqElems] at hxs <;> simp [normalizeValue, hxs]
  have hny : normalizeValue vNew = Value.list ys := by
    cases vNew <;> simp [seqElems] at hys <;> simp [normalizeValue, hys]
  rw [hnx, hny] at h3
  rw [show pyEq (Value.list xs) (Value.list ys) = pyEqList xs ys from by
    simp [pyEq]] at h3
  rw [heq] at h3
  cases h3

/-- Witness for C6: a tuple `(1, 2)` replaced by the list `[1, 2]` is not
reported as modified. -/
theorem equal_ordered_collections_not_modified_witness :
    "t" ∉ modifiedNames (computeDiff
      (Option.some [("t", Value.tuple [Value.int 1, Value.int 2])])
      [("t", Value.list [Value.int 1, Value.int 2])]) :=
  equal_ordered_collections_not_modified _ _ "t"
    (Value.tuple [Value.int 1, Value.int 2])
    (Value.list [Value.int 1, Value.int 2])
    [Value.int 1, Value.int 2] [Value.int 1, Value.int 2]
    (List.mem_singleton.mpr rfl) (List.mem_singleton.mpr rfl)
    (by decide) (by decide) rfl rfl (by decide)

/-- The worked example step of the spec: source line `sum_val = a + b`. -/
def exampleSumStep : PStep :=
  { step := 3, line := 3, source := "sum_val = a + b", function := "main",
    vars := [], event := "line", call_stack_depth := 0 }

/-- C7: per-step concept extraction returns the sorted, deduplicated
union of the lexical, state-diff and event/depth signal sets (strictly
ascending, hence duplicate-free and deterministic); on the line
`sum_val = a + b` it includes the tags assignment and arithmetic. -/
theorem extract_concepts_sorted_dedup_union (step : PStep)
    (diff : StateDiff) (prevStep : Option PStep) :
    ((extractConcepts step diff prevStep).Pairwise
        (fun a b => tagLt a b = true) ∧
     ∀ t, t ∈ extractConcepts step diff prevStep ↔
       (t ∈ detectFromSource step.source ∨ t ∈ detectFromStateDiff diff ∨
        t ∈ detectFromEvent step.event
          (match prevStep with
           | Option.some pr => pr.call_stack_depth
           | Option.none => 0) step.call_stack_depth)) ∧
    ("assignment" ∈ extractConcepts exampleSumStep ⟨[], [], []⟩ Option.none ∧
     "arithmetic" ∈ extractConcepts exampleSumStep ⟨[], [], []⟩ Option.none) := by
  refine ⟨⟨pairwise_sortDedup _, ?_⟩, by decide, by decide⟩
  intro t
  simp only [extractConcepts, mem_sortDedup, List.mem_append]
  tauto

/-- Claim-side predicate for C10: every `=` in the character list is
immediately preceded by `<` or `>` (`prev` is the preceding character). -/
def eqOnlyAfterCmp : Option Char → List Char → Bool
  | _, [] => true
  | prev, c :: cs =>
      (if c == '=' then
        match prev with
        | Option.some p2 => p2 == '<' || p2 == '>'
        | Option.none => false
       else true) && eqOnlyAfterCmp (Option.some c) cs

theorem no_pair_of_eqOnlyAfterCmp : ∀ (l : List Char) (prev : Option Char)
    (a : Char), eqOnlyAfterCmp prev l = true → (a == '<') = false →
    (a == '>') = false → containsL [a, '='] l = false := by
  intro l
  induction l with
  | nil =>
      intro prev a h h1 h2
      rfl
  | cons c cs ih =>
      intro prev a h h1 h2
      simp only [eqOnlyAfterCmp, Bool.and_eq_true] at h
      obtain ⟨hc, hrest⟩ := h
      have htail := ih (Option.some c) a hrest h1 h2
      rw [containsL, htail, Bool.or_false, startsL]
      by_cases hac : (a == c) = true
      · rw [hac, Bool.true_and]
        cases cs with
        | nil => rfl
        | cons c2 cs2 =>
            rw [startsL]
            by_cases h2c : ('=' == c2) = true
            · exfalso
              have hc2 : c2 = '=' := ((beq_iff_eq ..).mp h2c).symm
              subst hc2
              simp only [eqOnlyAfterCmp, Bool.and_eq_true] at hrest
              have hfst := hrest.1
              rw [if_pos (by rfl)] at hfst
              have hca : c = a := ((beq_iff_eq ..).mp hac).symm
              subst hca
              rw [Bool.or_eq_true] at hfst
              rcases hfst with hf | hf
              · rw [h1] at hf; cases hf
              · rw [h2] at hf; cases hf
            · have : ('=' == c2) = false := Bool.eq_false_iff.mpr h2c
              rw [this, Bool.false_and]
      · have : (a == c) = false := Bool.eq_false_iff.mpr hac
        rw [this, Bool.false_and]

theorem mem_ite_list {c : Bool} {t x : String} :
    t ∈ (if c = true then [x] else []) ↔ c = true ∧ t = x := by
  cases c <;> simp

theorem assignment_mem_detect_iff (s : String) :
    "assignment" ∈ detectFromSource s ↔
      (s.data.isEmpty = false ∧ hasChar '=' s.data = true ∧
       containsL ['=', '='] s.data = false ∧
       containsL ['!', '='] s.data = false) := by
  by_cases hem : s.data.isEmpty = true
  · simp [detectFromSource, hem]
  · have hemf : s.data.isEmpty = false := Bool.eq_false_iff.mpr hem
    simp [detectFromSource, hemf, List.mem_append, mem_ite_list,
      Bool.and_eq_true, Bool.not_eq_true', and_assoc]

/-- C10: a source line containing `==` or `!=` anywhere is never
lexically tagged assignment (even when it also assigns); conversely a
line whose every `=` occurs only inside `<=` or `>=` is still tagged
assignment. -/
theorem lexical_assignment_equality_exclusion (s : String) :
    ((containsL ['=', '='] s.data = true ∨
      containsL ['!', '='] s.data = true) →
      "assignment" ∉ detectFromSource s) ∧
    (hasChar '=' s.data = true → eqOnlyAfterCmp Option.none s.data = true →
      "assignment" ∈ detectFromSource s) := by
  constructor
  · intro h hmem
    rw [assignment_mem_detect_iff] at hmem
    rcases h with h | h
    · rw [hmem.2.2.1] at h
      cases h
    · rw [hmem.2.2.2] at h
      cases h
  · intro h1 h2
    rw [assignment_mem_detect_iff]
    refine ⟨?_, h1,
      no_pair_of_eqOnlyAfterCmp s.data Option.none '=' h2 rfl rfl,
      no_pair_of_eqOnlyAfterCmp s.data Option.none '!' h2 rfl rfl⟩
    cases hd : s.data with
    | nil =>
        rw [hd] at h1
        cases h1
    | cons c cs => rfl

/-- Witness for C10 on `x = (a == b)` (equality wins over the
assignment) and `if a <= b:` (`<=` still counts as assignment). -/
theorem lexical_assignment_equality_exclusion_witness :
    "assignment" ∉ detectFromSource "x = (a == b)" ∧
    "assignment" ∈ detectFromSource "if a <= b:" :=
  ⟨(lexical_assignment_equality_exclusion "x = (a == b)").1
      (Or.inl (by decide)),
   (lexical_assignment_equality_exclusion "if a <= b:").2 (by decide)
      (by decide)⟩

/-- C9: inside the synthesizer's per-step loop a knowledge query is
issued only when the step's diff has at least one change and at least
one concept was extracted: with the gate open the entry is built from
the oracle's `retrieveForStep` result; with the gate closed the entry is
identical for every oracle and its explanation is generated from an
empty knowledge list.  The first conjunct places this loop body inside
`generateStepExplanations`. -/
theorem retrieval_gating (o o2 : RetrievalOracle) (ecc : CoreExtractor)
    (topK : Nat) (level code : String) (trace : List RawStep)
    (step : PStep) (diff : StateDiff) (concepts : List String) :
    (generateStepExplanations o ecc topK level code trace =
      (((processTrace code trace).zip
          (computeTraceDiffs (processTrace code trace))).zip
        (extractTraceConceptsList (processTrace code trace)
          (computeTraceDiffs (processTrace code trace)))).map
        (fun x => explainStepEntry o ecc topK level x.1.1 x.1.2 x.2)) ∧
    ((diff.has_changes && !concepts.isEmpty) = true →
      explainStepEntry o ecc topK level step diff concepts =
        { step := step.step, line := step.line, vars := step.vars,
          explanation := genExplanation ecc step diff concepts
            (retrieveForStep o topK concepts step.source true) level }) ∧
    ((diff.has_changes && !concepts.isEmpty) = false →
      explainStepEntry o ecc topK level step diff concepts =
        explainStepEntry o2 ecc topK level step diff concepts ∧
      (explainStepEntry o ecc topK level step diff concepts).explanation =
        genExplanation ecc step diff concepts [] level) := by
  refine ⟨rfl, ?_, ?_⟩
  · intro h
    simp [explainStepEntry, h]
  · intro h
    constructor
    · simp [explainStepEntry, h]
    · simp [explainStepEntry, h]

/-- A state diff with one created variable, used to open the C9 gate. -/
def gateDiff : StateDiff :=
  { created := [⟨"a", "created", Value.none, Value.int 5⟩],
    modified := [], removed := [] }

/-- A collaborator that answers every query with one chunk. -/
def okOracle : RetrievalOracle :=
  { retrieveByConcept := fun _ _ _ => Except.ok ["chunk"]
    retrieveGeneral := fun _ _ => Except.ok ["chunk"] }

/-- Witness for C9: with changes and concepts the entry queries the
oracle; with no changes and no concepts the explanation uses an empty
knowledge list. -/
theorem retrieval_gating_witness :
    (explainStepEntry okOracle (fun _ _ => "") 2 "medium" trivialStep
        gateDiff ["assignment"] =
      { step := trivialStep.step, line := trivialStep.line,
        vars := trivialStep.vars,
        explanation := genExplanation (fun _ _ => "") trivialStep gateDiff
          ["assignment"]
          (retrieveForStep okOracle 2 ["assignment"] trivialStep.source true)
          "medium" }) ∧
    (explainStepEntry okOracle (fun _ _ => "") 2 "medium" trivialStep
        ⟨[], [], []⟩ []).explanation =
      genExplanation (fun _ _ => "") trivialStep ⟨[], [], []⟩ [] []
        "medium" :=
  ⟨(retrieval_gating okOracle okOracle (fun _ _ => "") 2 "medium" "" []
      trivialStep gateDiff ["assignment"]).2.1 (by decide),
   ((retrieval_gating okOracle okOracle (fun _ _ => "") 2 "medium" "" []
      trivialStep ⟨[], [], []⟩ []).2.2 (by decide)).2⟩

/-- A collaborator whose every call fails (timeout, unreachable store …). -/
def failingOracle (e : String) : RetrievalOracle :=
  { retrieveByConcept := fun _ _ _ => Except.error e
    retrieveGeneral := fun _ _ => Except.error e }

theorem retrieveForStep_failingOracle (e : String) (topK : Nat)
    (concepts : List String) (source : String) (useF : Bool) :
    retrieveForStep (failingOracle e) topK concepts source useF = [] := by
  rw [retrieveForStep]
  by_cases h1 : (concepts.isEmpty && source.isEmpty) = true
  · rw [if_pos h1]
  · rw [if_neg h1]
    simp only [failingOracle]
    by_cases h2 : (useF && !concepts.isEmpty) = true
    · rw [if_pos h2]
      cases selectPrimaryConcept concepts with
      | none => rfl
      | some pc =>
          by_cases h3 : pc.isEmpty = true
          · simp [h3]
          · simp [h3]
    · rw [if_neg h2]

theorem explainStepEntry_failingOracle (e : String) (ecc : CoreExtractor)
    (topK : Nat) (level : String) (a : PStep) (b : StateDiff)
    (c : List String) :
    explainStepEntry (failingOracle e) ecc topK level a b c =
      { step := a.step, line := a.line, vars := a.vars,
        explanation := genExplanation ecc a b c [] level } := by
  by_cases hg : (b.has_changes && !c.isEmpty) = true
  · simp [explainStepEntry, hg, retrieveForStep_failingOracle]
  · simp [explainStepEntry, hg]

/-- C8: a failing knowledge-retrieval collaborator is recovered locally:
generation never aborts (one enriched entry per processed step for every
collaborator), a failing call yields an empty knowledge list, every
step's explanation degrades to the base segment (knowledge-free
generation) for the whole trace, and the knowledge-free explanation does
not depend on the insight extractor at all. -/
theorem retrieval_failure_recovered (e : String) (ecc ecc2 : CoreExtractor)
    (topK : Nat) (level code src : String) (trace : List RawStep)
    (o : RetrievalOracle) (step : PStep) (diff : StateDiff)
    (concepts : List String) (useF : Bool) :
    ((generateStepExplanations o ecc topK level code trace).length =
      (processTrace code trace).length) ∧
    (retrieveForStep (failingOracle e) topK concepts src useF = []) ∧
    (generateStepExplanations (failingOracle e) ecc topK level code trace =
      (((processTrace code trace).zip
          (computeTraceDiffs (processTrace code trace))).zip
        (extractTraceConceptsList (processTrace code trace)
          (computeTraceDiffs (processTrace code trace)))).map
        (fun x =>
          { step := x.1.1.step, line := x.1.1.line, vars := x.1.1.vars,
            explanation := genExplanation ecc x.1.1 x.1.2 x.2 [] level })) ∧
    (genExplanation ecc step diff concepts [] level =
      genExplanation ecc2 step diff concepts [] level) := by
  have hn : (computeTraceDiffs (processTrace code trace)).length =
      (processTrace code trace).length :=
    length_computeTraceDiffsAux Option.none (processTrace code trace)
  have hc : (extractTraceConceptsList (processTrace code trace)
      (computeTraceDiffs (processTrace code trace))).length =
      (processTrace code trace).length := by
    rw [extractTraceConceptsList, if_pos (by rw [hn]; exact beq_self_eq_true _),
      length_extractTraceConceptsAux, List.length_zip, hn, min_self]
  refine ⟨?_, retrieveForStep_failingOracle e topK concepts src useF, ?_, ?_⟩
  · rw [generateStepExplanations, List.length_map, List.length_zip,
      List.length_zip, hn, hc, min_self, min_self]
  · rw [generateStepExplanations]
    have hfun : (fun x : (PStep × StateDiff) × List String =>
        explainStepEntry (failingOracle e) ecc topK level x.1.1 x.1.2 x.2) =
        (fun x : (PStep × StateDiff) × List String =>
          ({ step := x.1.1.step, line := x.1.1.line, vars := x.1.1.vars,
             explanation := genExplanation ecc x.1.1 x.1.2 x.2 [] level } :
            EnrichedStep)) :=
      funext fun x =>
        explainStepEntry_failingOracle e ecc topK level x.1.1 x.1.2 x.2
    rw [hfun]
  · have hkp : ∀ f : CoreExtractor, knowledgePart f [] level = [] :=
      fun f => rfl
    simp only [genExplanation, hkp]
